import Mathlib

/-!
A shallow embedding of the note-taking application in `src/main.rs` and proofs
about its store operations, drag-and-drop reordering, filtering and JSON
persistence.

Modelling conventions:
* `u128` / `u64` machine integers (note ids, timestamps) are modelled as `Nat`;
  the program only generates, stores, compares and serializes them, so no
  overflow arithmetic is involved.
* `f32` UI coordinates are modelled as `ℚ`; the drag-and-drop geometry only
  adds and multiplies small integer constants, which `f32` represents exactly.
* Rust `String` is modelled as Lean `String`; `str::contains` is substring
  containment on the underlying character lists, and `str::to_lowercase` is
  modelled by per-character lowercasing (`toLowercase` below).
* Calls into the environment (the random id generator `rand::random`,
  the clock `current_unix`, filesystem reads/writes) are modelled by passing
  the environment's answer as an explicit argument.
* The JSON text layer of `serde_json` is modelled at the level of JSON values:
  a `Json` tree stands for the (pretty-printed) file contents.
-/

/-- The `Note` record from `src/main.rs` (`struct Note`). -/
structure Note where
  id : Nat
  title : String
  body : String
  modified : Nat
  editing : Bool
  backup : Option String
deriving DecidableEq, Repr

/-- Constructor `Note::new` from `src/main.rs`: default title, empty body, the current
time as `modified` (the clock's answer is the `now` argument). -/
def Note.new (id : Nat) (now : Nat) : Note :=
  { id := id
    title := "Untitled"
    body := ""
    modified := now
    editing := false
    backup := none }

/-- The `AppSettings` record from `src/main.rs` (`font_size: f32` modelled
as `ℚ`). -/
structure AppSettings where
  dark_mode : Bool
  font_size : ℚ
  auto_save : Bool
  show_word_count : Bool
deriving DecidableEq, Repr

/-- Default settings, `impl Default for AppSettings` from `src/main.rs`. -/
def AppSettings.default : AppSettings :=
  { dark_mode := true
    font_size := 17
    auto_save := true
    show_word_count := false }

/-- The mutable application state of `struct NotesApp` restricted to the
fields the store operations read or write: the note list, the selection,
the search query, the dirty flag and the drag origin (`dragging`).  The
remaining fields (`data_path`, `settings_path`, `settings`,
`drag_start_pos`, `current_view`, `settings_changed`) are I/O handles and
UI chrome that none of the modelled operations consult. -/
structure NotesApp where
  notes : List Note
  selected : Option Nat
  search : String
  dirty : Bool
  dragging : Option Nat
deriving DecidableEq, Repr

/-- Method `NotesApp::add_note` from `src/main.rs`.  The value returned by
`rand::random::<u128>()` is the `id` argument and the clock's answer is
`now`.  The new note is `Note::new(id)` with its title overwritten to
`"Note {len+1}"`, inserted at index 0; the selection becomes index 0 and
the dirty flag is set. -/
def add_note (s : NotesApp) (id now : Nat) : NotesApp :=
  let note := Note.new id now
  let note := { note with title := "Note " ++ Nat.repr (s.notes.length + 1) }
  { s with notes := note :: s.notes, selected := some 0, dirty := true }

/-- Method `NotesApp::delete_selected` from `src/main.rs`: if a note is selected and
the index is in range, remove it, re-derive the selection
(`None` if the list became empty, else `Some(0.min(idx))`), and set the
dirty flag. -/
def delete_selected (s : NotesApp) : NotesApp :=
  match s.selected with
  | none => s
  | some idx =>
    if idx < s.notes.length then
      let notes := s.notes.eraseIdx idx
      { s with
        notes := notes
        selected := if notes.isEmpty then none else some (Nat.min 0 idx)
        dirty := true }
    else s

/-- Method `NotesApp::move_note` from `src/main.rs`: when `from ≠ to` and both are
in range, remove the note at `from`, re-insert it at `to`, shift the
selected index so it keeps pointing at the same note, and set the dirty
flag; otherwise do nothing. -/
def move_note (s : NotesApp) (f t : Nat) : NotesApp :=
  if h : f ≠ t ∧ f < s.notes.length ∧ t < s.notes.length then
    let note := s.notes.get ⟨f, h.2.1⟩
    let notes := (s.notes.eraseIdx f).insertIdx t note
    let selected :=
      match s.selected with
      | none => none
      | some i =>
        if i = f then some t
        else if f < i ∧ i ≤ t then some (i - 1)
        else if i < f ∧ t ≤ i then some (i + 1)
        else some i
    { s with notes := notes, selected := selected, dirty := true }
  else s

/-- The model of Rust's `str::to_lowercase`: lowercase every character. -/
def toLowercase (s : String) : String :=
  ⟨s.data.map Char.toLower⟩

/-- The per-note search predicate from the `filtered_notes` computation in
`NotesApp::update` (`src/main.rs` lines 354–359): the query matches when it
is empty, or the lowercased title or lowercased body contains the lowercased
query as a substring. -/
def matches_query (search : String) (n : Note) : Bool :=
  let q := toLowercase search
  q.isEmpty
    || decide (q.data <:+: (toLowercase n.title).data)
    || decide (q.data <:+: (toLowercase n.body).data)

/-- The `filtered_notes` list built each frame in `NotesApp::update`
(`src/main.rs` lines 350–361): the `(original_index, title, id)` triples of
the notes matching the search query, in list order. -/
def filtered_notes (notes : List Note) (search : String) : List (Nat × String × Nat) :=
  ((notes.enum).filter (fun p => matches_query search p.2)).map
    (fun p => (p.1, p.2.title, p.2.id))

/-- The in-memory `NotesApp::save_notes` method (`src/main.rs` lines
138–144).  The outcome of `fs::write` is the `writeOk` argument; the result
pairs the new state with whether an error message was printed to the
console (`eprintln!`).  On success the dirty flag is cleared; on failure the
state is untouched and the error is logged. -/
def NotesApp.save_notes (s : NotesApp) (writeOk : Bool) : NotesApp × Bool :=
  if writeOk then ({ s with dirty := false }, false) else (s, true)

/-- A store operation of the kind quantified over by the add/delete
selection invariant: an `add` carries the environment's answers (the random
id and the clock), a `delete` needs none. -/
inductive StoreOp where
  | add (id now : Nat)
  | delete
deriving DecidableEq, Repr

/-- Apply one store operation. -/
def applyOp (s : NotesApp) : StoreOp → NotesApp
  | .add id now => add_note s id now
  | .delete => delete_selected s

/-- Apply a sequence of store operations, left to right. -/
def applyOps (s : NotesApp) (ops : List StoreOp) : NotesApp :=
  ops.foldl applyOp s

/-- The selection, when present, refers to an existing note. -/
def selectionValid (s : NotesApp) : Prop :=
  ∀ i, s.selected = some i → i < s.notes.length

/-- The Edit-button handler in `NotesApp::update` (`src/main.rs` lines
599–602): snapshot the body into `backup` and enter editing mode. -/
def edit_pressed (n : Note) : Note :=
  { n with backup := some n.body, editing := true }

/-- The Close-button handler in `NotesApp::update` (`src/main.rs` lines
591–597): restore the body from `backup` when one exists, leave editing
mode, clear `backup`. -/
def close_pressed (n : Note) : Note :=
  match n.backup with
  | some original => { n with body := original, editing := false, backup := none }
  | none => { n with editing := false, backup := none }

/-- The body `TextEdit` changed-handler in `NotesApp::update` (`src/main.rs`
lines 539–549): the body takes its new contents and `modified` is set to
the current time (the clock's answer is `now`). -/
def body_changed (n : Note) (newBody : String) (now : Nat) : Note :=
  { n with body := newBody, modified := now }

/-- JSON values; a `Json` tree models the contents of a (pretty-printed)
JSON file written or read by `serde_json`.  Numbers are modelled as `ℚ`. -/
inductive Json where
  | null
  | bool (b : Bool)
  | num (q : ℚ)
  | str (s : String)
  | arr (elements : List Json)
  | obj (fields : List (String × Json))

/-- Field lookup in a JSON object, as serde does when deserializing a
struct (fields may come in any order). -/
def Json.getField (j : Json) (key : String) : Option Json :=
  match j with
  | .obj fields => fields.lookup key
  | _ => none

/-- Deserialize an unsigned integer (serde for `u128` / `u64`). -/
def Json.asNat (j : Json) : Option Nat :=
  match j with
  | .num q => if q.den = 1 ∧ 0 ≤ q.num then some q.num.toNat else none
  | _ => none

/-- Deserialize a string. -/
def Json.asStr (j : Json) : Option String :=
  match j with
  | .str s => some s
  | _ => none

/-- Deserialize a boolean. -/
def Json.asBool (j : Json) : Option Bool :=
  match j with
  | .bool b => some b
  | _ => none

/-- Deserialize a number (serde for `f32`, modelled as `ℚ`). -/
def Json.asRat (j : Json) : Option ℚ :=
  match j with
  | .num q => some q
  | _ => none

/-- Deserialize an `Option<String>` (`null` or a string). -/
def Json.asOptStr (j : Json) : Option (Option String) :=
  match j with
  | .null => some none
  | .str s => some (some s)
  | _ => none

/-- Serde serialization of one `Note` (fields in declaration order). -/
def encodeNote (n : Note) : Json :=
  .obj
    [ ("id", .num n.id)
    , ("title", .str n.title)
    , ("body", .str n.body)
    , ("modified", .num n.modified)
    , ("editing", .bool n.editing)
    , ("backup", match n.backup with | none => .null | some s => .str s) ]

/-- Serde deserialization of one `Note`. -/
def decodeNote (j : Json) : Option Note := do
  let id ← (j.getField "id").bind Json.asNat
  let title ← (j.getField "title").bind Json.asStr
  let body ← (j.getField "body").bind Json.asStr
  let modified ← (j.getField "modified").bind Json.asNat
  let editing ← (j.getField "editing").bind Json.asBool
  let backup ← (j.getField "backup").bind Json.asOptStr
  pure { id := id, title := title, body := body, modified := modified,
         editing := editing, backup := backup }

/-- Serde serialization of `Vec<Note>`: a JSON array. -/
def encodeNotes (notes : List Note) : Json :=
  .arr (notes.map encodeNote)

/-- Serde deserialization of a sequence of notes: every element must
decode. -/
def decodeNoteList : List Json → Option (List Note)
  | [] => some []
  | j :: js =>
    match decodeNote j, decodeNoteList js with
    | some n, some ns => some (n :: ns)
    | _, _ => none

/-- Serde deserialization of `Vec<Note>`. -/
def decodeNotes (j : Json) : Option (List Note) :=
  match j with
  | .arr elements => decodeNoteList elements
  | _ => none

/-- Serde deserialization of `AppSettings`. -/
def decodeSettings (j : Json) : Option AppSettings := do
  let dark_mode ← (j.getField "dark_mode").bind Json.asBool
  let font_size ← (j.getField "font_size").bind Json.asRat
  let auto_save ← (j.getField "auto_save").bind Json.asBool
  let show_word_count ← (j.getField "show_word_count").bind Json.asBool
  pure { dark_mode := dark_mode, font_size := font_size,
         auto_save := auto_save, show_word_count := show_word_count }

/-- Function `load_notes` from `src/main.rs` (lines 637–644).  The file system's
answer is the `file` argument: `none` when the path does not exist,
`some j` when the file exists and holds the JSON value `j`.  A missing
file yields `Ok(vec![])`; unparseable contents yield an error. -/
def load_notes (file : Option Json) : Except Unit (List Note) :=
  match file with
  | none => .ok []
  | some j =>
    match decodeNotes j with
    | some notes => .ok notes
    | none => .error ()

/-- Function `save_notes` (the free function) from `src/main.rs` (lines 646–650):
the JSON value written to the notes file. -/
def save_notes (notes : List Note) : Json :=
  encodeNotes notes

/-- Function `load_settings` from `src/main.rs` (lines 652–659): a missing file
yields `Ok(AppSettings::default())`; unparseable contents yield an
error. -/
def load_settings (file : Option Json) : Except Unit AppSettings :=
  match file with
  | none => .ok AppSettings.default
  | some j =>
    match decodeSettings j with
    | some settings => .ok settings
    | none => .error ()

/-- The `(id, title, body, modified)` projection of a note, the tuple the
round-trip property speaks about. -/
def noteTuple (n : Note) : Nat × String × String × Nat :=
  (n.id, n.title, n.body, n.modified)

/-- Membership of a pointer position in the rectangle the drag code computes
for the row at position `li` of the filtered list (`src/main.rs` lines
430–434 and 458–462): top-left `(left, top + li·25 + 40)`, size
`(width, 20)`, with `egui::Rect::contains` being inclusive on all four
edges. -/
def inRowRect (top left width : ℚ) (li : Nat) (p : ℚ × ℚ) : Bool :=
  let y := top + li * 25 + 40
  decide (left ≤ p.1) && decide (p.1 ≤ left + width)
    && decide (y ≤ p.2) && decide (p.2 ≤ y + 20)

/-- The drop-target resolution performed on pointer release
(`src/main.rs` lines 454–470): scan the filtered rows in order and move the
dragged note to the original index of the first row, other than the dragged
one, whose rectangle contains the pointer; if no row contains the pointer,
no move is requested. -/
def drop_resolve (filtered : List (Nat × String × Nat)) (dragIdx : Nat)
    (p : ℚ × ℚ) (top left width : ℚ) : Option (Nat × Nat) :=
  match filtered.enum.find?
      (fun e => (e.2.1 != dragIdx) && inRowRect top left width e.1 p) with
  | some e => some (dragIdx, e.2.1)
  | none => none

/-- The whole pointer-release step while a drag may be active
(`src/main.rs` lines 454–473 and 485–487): reset the drag state to idle
and, when the resolution found a target, invoke `move_note`.  The last
known pointer position (`ctx.pointer_latest_pos()`) is the `pointer`
argument, `none` when the toolkit has no position. -/
def drag_release (s : NotesApp) (pointer : Option (ℚ × ℚ))
    (top left width : ℚ) : NotesApp :=
  match s.dragging with
  | none => s
  | some d =>
    let request :=
      match pointer with
      | none => none
      | some p => drop_resolve (filtered_notes s.notes s.search) d p top left width
    let idle := { s with dragging := none }
    match request with
    | some (f, t) => move_note idle f t
    | none => idle

/-- The vertical center of the row rectangle at position `li`. -/
def rowCenterY (top : ℚ) (li : Nat) : ℚ :=
  top + li * 25 + 40 + 10

/-- Modelled from the spec, for comparison with `drop_resolve`: the
resolution the specification describes for pointer release — insert before
or after the row under the pointer according to the above/below-center
rule, and clamp to the start of the list when the pointer is above the
first row and to the end when it is below the last row. -/
def spec_drop_resolve (filtered : List (Nat × String × Nat)) (dragIdx : Nat)
    (p : ℚ × ℚ) (top left width : ℚ) : Option (Nat × Nat) :=
  match filtered.enum.find? (fun e => inRowRect top left width e.1 p) with
  | some e =>
    some (dragIdx, if p.2 < rowCenterY top e.1 then e.2.1 else e.2.1 + 1)
  | none =>
    if filtered.isEmpty then none
    else if p.2 < top + 40 then some (dragIdx, 0)
    else if top + (filtered.length - 1 : Nat) * 25 + 40 + 20 < p.2 then
      some (dragIdx, filtered.length - 1)
    else none

/-- Concrete three-note store for the reorder scenario: notes titled
`A`, `B`, `C` with the selection on `B` at index 1. -/
def noteA : Note :=
  { id := 1, title := "A", body := "", modified := 10, editing := false, backup := none }

/-- Second note of the scenario store. -/
def noteB : Note :=
  { id := 2, title := "B", body := "", modified := 11, editing := false, backup := none }

/-- Third note of the scenario store. -/
def noteC : Note :=
  { id := 3, title := "C", body := "", modified := 12, editing := false, backup := none }

/-- The scenario store `[A, B, C]` with selection on `B`. -/
def demoStore : NotesApp :=
  { notes := [noteA, noteB, noteC], selected := some 1, search := ""
    dirty := false, dragging := none }

/-- Claim C8: loading from a path at which no file exists returns the empty
note collection, respectively the default settings, as a success value and
not as an error. -/
theorem load_missing_file_defaults :
    load_notes none = Except.ok [] ∧ load_settings none = Except.ok AppSettings.default :=
  ⟨rfl, rfl⟩

/-- Decoding inverts encoding for a single note. -/
theorem decodeNote_encodeNote (n : Note) : decodeNote (encodeNote n) = some n := by
  cases n with
  | mk id title body modified editing backup =>
    cases backup <;>
      simp [decodeNote, encodeNote, Json.getField, Json.asNat, Json.asStr,
            Json.asBool, Json.asOptStr, List.lookup, Option.bind,
            Rat.den_natCast, Rat.num_natCast, Int.toNat_natCast]

/-- Decoding inverts encoding for a list of notes. -/
theorem decodeNoteList_map_encodeNote (notes : List Note) :
    decodeNoteList (notes.map encodeNote) = some notes := by
  induction notes with
  | nil => rfl
  | cons n ns ih => simp [decodeNoteList, decodeNote_encodeNote, ih]

/-- Claim C5: saving a note collection and loading the written file back
reproduces the collection exactly — in particular the same sequence of
`(id, title, body, modified)` tuples. -/
theorem save_load_round_trip (notes : List Note) :
    load_notes (some (save_notes notes)) = Except.ok notes
      ∧ ∀ notes', load_notes (some (save_notes notes)) = Except.ok notes' →
          notes'.map noteTuple = notes.map noteTuple := by
  have h : load_notes (some (save_notes notes)) = Except.ok notes := by
    simp [load_notes, save_notes, encodeNotes, decodeNotes,
          decodeNoteList_map_encodeNote]
  refine ⟨h, fun notes' h' => ?_⟩
  rw [h] at h'
  cases h'
  rfl

/-- A store that already holds a note with id 5. -/
def dupStore : NotesApp :=
  { notes := [{ id := 5, title := "X", body := "", modified := 0,
                editing := false, backup := none }]
    selected := some 0, search := "", dirty := false, dragging := none }

/-- Claim C7, counterexample: `add_note` does not check the generated id
against the existing ones.  When the random generator returns 5 and the
store already holds a note with id 5, the freshly inserted note (now at
index 0) and the pre-existing note (now at index 1) carry the same id. -/
theorem add_note_id_collision :
    (add_note dupStore 5 0).notes.map Note.id = [5, 5] := by decide

/-- Claim C7, amended: `add_note` inserts at index 0 a new note carrying
whatever id the random generator produced (uniqueness is not checked),
titled `Note N` for `N` the previous note count plus one, with empty body;
it selects index 0 and sets the dirty flag. -/
theorem add_note_spec (s : NotesApp) (id now : Nat) :
    (add_note s id now).notes
        = { id := id, title := "Note " ++ Nat.repr (s.notes.length + 1)
            body := "", modified := now, editing := false, backup := none } :: s.notes
      ∧ (add_note s id now).selected = some 0
      ∧ (add_note s id now).dirty = true :=
  ⟨rfl, rfl, rfl⟩

/-- Claim C10, counterexample: editing the body between Edit and Close
updates the `modified` timestamp (the body `TextEdit` handler), and Close
does not restore it, so an Edit / mutate / Close round trip does not leave
`modified` at its Edit-time value. -/
theorem edit_close_modified_counterexample :
    (close_pressed (body_changed (edit_pressed noteA) "changed" 99)).modified = 99
      ∧ noteA.modified = 10 := by decide

/-- Folding body edits only rewrites the body and the timestamp. -/
theorem foldl_body_changed (m : Note) (edits : List (String × Nat)) :
    edits.foldl (fun acc e => body_changed acc e.1 e.2) m
      = { m with body := (edits.map Prod.fst).getLastD m.body
                 modified := (edits.map Prod.snd).getLastD m.modified } := by
  induction edits generalizing m with
  | nil => simp
  | cons e es ih =>
    rw [List.foldl_cons, ih, List.map_cons, List.map_cons,
        List.getLastD_cons, List.getLastD_cons]
    rfl

/-- Claim C10, amended: pressing Edit snapshots the body; after arbitrary
body edits, pressing Close restores the body exactly to the snapshot and
resets `editing` and `backup`, and the note's id and title are unchanged —
but the `modified` timestamp is not restored: it keeps the time of the last
body edit (the Edit-time value only when no edit happened). -/
theorem edit_close_round_trip (n : Note) (edits : List (String × Nat)) :
    (close_pressed (edits.foldl (fun acc e => body_changed acc e.1 e.2) (edit_pressed n))).body
        = n.body
      ∧ (close_pressed (edits.foldl (fun acc e => body_changed acc e.1 e.2) (edit_pressed n))).title
        = n.title
      ∧ (close_pressed (edits.foldl (fun acc e => body_changed acc e.1 e.2) (edit_pressed n))).id
        = n.id
      ∧ (close_pressed (edits.foldl (fun acc e => body_changed acc e.1 e.2) (edit_pressed n))).editing
        = false
      ∧ (close_pressed (edits.foldl (fun acc e => body_changed acc e.1 e.2) (edit_pressed n))).backup
        = none
      ∧ (close_pressed (edits.foldl (fun acc e => body_changed acc e.1 e.2) (edit_pressed n))).modified
        = (edits.map Prod.snd).getLastD n.modified := by
  rw [foldl_body_changed]
  simp [edit_pressed, close_pressed]

/-- Claim C9: for a state whose dirty flag is set, the in-memory
`save_notes` method clears the dirty flag exactly when the write succeeded;
the notes are untouched either way, and on failure the state is unchanged
and an error is logged to the console. -/
theorem save_notes_dirty_spec (s : NotesApp) (writeOk : Bool) (h : s.dirty = true) :
    ((s.save_notes writeOk).1.dirty = false ↔ writeOk = true)
      ∧ (s.save_notes writeOk).1.notes = s.notes
      ∧ (writeOk = false → (s.save_notes writeOk).1 = s ∧ (s.save_notes writeOk).2 = true)
      ∧ (writeOk = true → (s.save_notes writeOk).1.dirty = false
            ∧ (s.save_notes writeOk).2 = false) := by
  cases writeOk <;> simp [NotesApp.save_notes, h]

/-- Witness for Claim C9 at a concrete dirty state and a failing write. -/
theorem save_notes_dirty_spec_witness :
    ({ dupStore with dirty := true }.save_notes false).1 = { dupStore with dirty := true } :=
  ((save_notes_dirty_spec { dupStore with dirty := true } false rfl).2.2.1 rfl).1

/-- Deletion does nothing when no note is selected. -/
theorem delete_selected_none (s : NotesApp) (h : s.selected = none) :
    delete_selected s = s := by
  simp [delete_selected, h]

/-- Deletion does nothing when the selected index is out of
range. -/
theorem delete_selected_oob (s : NotesApp) (i : Nat) (h : s.selected = some i)
    (hge : ¬ i < s.notes.length) : delete_selected s = s := by
  simp [delete_selected, h, hge]

/-- The effect of `delete_selected` on a valid selection. -/
theorem delete_selected_some (s : NotesApp) (i : Nat) (h : s.selected = some i)
    (hlt : i < s.notes.length) :
    delete_selected s
      = { s with notes := s.notes.eraseIdx i
                 selected := if (s.notes.eraseIdx i).isEmpty then none else some 0
                 dirty := true } := by
  have hmin : Nat.min 0 i = 0 := Nat.min_eq_left (Nat.zero_le i)
  simp [delete_selected, h, hlt, hmin]

/-- One add or delete step preserves validity of the selection. -/
theorem applyOp_selectionValid (s : NotesApp) (op : StoreOp)
    (h : selectionValid s) : selectionValid (applyOp s op) := by
  cases op with
  | add id now =>
    intro i hi
    simp [applyOp, add_note] at hi ⊢
    omega
  | delete =>
    show selectionValid (delete_selected s)
    cases hsel : s.selected with
    | none => rw [delete_selected_none s hsel]; exact h
    | some idx =>
      by_cases hlt : idx < s.notes.length
      · rw [delete_selected_some s idx hsel hlt]
        intro i hi
        simp only at hi ⊢
        split at hi
        · exact absurd hi (by simp)
        · next hne =>
            cases hi
            have : s.notes.eraseIdx idx ≠ [] := by
              intro hnil
              rw [hnil] at hne
              exact hne rfl
            exact List.length_pos.mpr this
      · rw [delete_selected_oob s idx hsel hlt]
        exact h

/-- Claim C2: starting from any state whose selection is valid, after any
sequence of add and delete operations the selected index, whenever present,
is strictly less than the length of the notes list. -/
theorem add_delete_selection_invariant (s : NotesApp) (ops : List StoreOp)
    (h : selectionValid s) : selectionValid (applyOps s ops) := by
  induction ops generalizing s with
  | nil => exact h
  | cons op ops ih => exact ih (applyOp s op) (applyOp_selectionValid s op h)

/-- The empty store. -/
def emptyStore : NotesApp :=
  { notes := [], selected := none, search := "", dirty := false, dragging := none }

/-- Witness for Claim C2 on a concrete run: an add followed by a delete
starting from the empty store. -/
theorem add_delete_selection_invariant_witness :
    selectionValid (applyOps emptyStore [StoreOp.add 1 0, StoreOp.delete]) :=
  add_delete_selection_invariant emptyStore [StoreOp.add 1 0, StoreOp.delete]
    (fun i hi => by simp [emptyStore] at hi)

/-- A store holding exactly one note, with that note selected. -/
def oneNoteStore : NotesApp :=
  { notes := [noteA], selected := some 0, search := "", dirty := false, dragging := none }

/-- Claim C6: with a valid selection, delete removes the note at the
selected index and the new selection is the first remaining note (index 0),
or none when the list became empty; deleting the only note of a one-note
store yields an empty store with no selection; without a selection the
state is unchanged. -/
theorem delete_selected_spec (s : NotesApp) :
    (s.selected = none → delete_selected s = s)
      ∧ (∀ i, s.selected = some i → i < s.notes.length →
          (delete_selected s).notes = s.notes.eraseIdx i
            ∧ (delete_selected s).selected
                = if s.notes.length = 1 then none else some 0)
      ∧ (delete_selected oneNoteStore).notes = []
      ∧ (delete_selected oneNoteStore).selected = none := by
  refine ⟨fun h => delete_selected_none s h, fun i hi hlt => ?_, by decide, by decide⟩
  rw [delete_selected_some s i hi hlt]
  have hlen : (s.notes.eraseIdx i).length = s.notes.length - 1 := by
    rw [List.length_eraseIdx]
    simp [hlt]
  refine ⟨rfl, ?_⟩
  simp only
  cases hE : (s.notes.eraseIdx i).isEmpty with
  | true =>
    have h0 : s.notes.eraseIdx i = [] := List.isEmpty_iff.mp hE
    have h0' : s.notes.length - 1 = 0 := by rw [← hlen, h0]; rfl
    have h1 : s.notes.length = 1 := by omega
    simp [h1]
  | false =>
    have hne : s.notes.eraseIdx i ≠ [] := by
      intro hnil
      exact absurd (List.isEmpty_iff.mpr hnil) (by simp [hE])
    have hpos : 0 < s.notes.length - 1 := by
      rw [← hlen]
      exact List.length_pos.mpr hne
    have h1 : s.notes.length ≠ 1 := by omega
    simp [h1]

/-- Witness for Claim C6 at the one-note store. -/
theorem delete_selected_spec_witness :
    (delete_selected oneNoteStore).notes = oneNoteStore.notes.eraseIdx 0
      ∧ (delete_selected oneNoteStore).selected
          = if oneNoteStore.notes.length = 1 then none else some 0 :=
  (delete_selected_spec oneNoteStore).2.1 0 rfl (by decide)

/-- Case-insensitive containment of the query in a note's title or body:
the search criterion named by the specification (no special case for the
empty query, which is a substring of everything). -/
def contains_ci (q : String) (n : Note) : Bool :=
  decide ((toLowercase q).data <:+: (toLowercase n.title).data)
    || decide ((toLowercase q).data <:+: (toLowercase n.body).data)

/-- Claim C4: the filtered list consists of the `(original index, title)`
pairs, in list order, of exactly the notes whose lowercased title or body
contains the lowercased query as a substring, and the empty query keeps
every note in original order. -/
theorem filter_query_spec (notes : List Note) (q : String) :
    (filtered_notes notes q).map (fun e => (e.1, e.2.1))
        = ((notes.enum).filter (fun p => contains_ci q p.2)).map
            (fun p => (p.1, p.2.title))
      ∧ filtered_notes notes ""
          = notes.enum.map (fun p => (p.1, p.2.title, p.2.id)) := by
  constructor
  · unfold filtered_notes
    rw [List.map_map]
    have hfilter : (notes.enum).filter (fun p => matches_query q p.2)
        = (notes.enum).filter (fun p => contains_ci q p.2) := by
      apply List.filter_congr
      intro x _
      unfold matches_query contains_ci
      cases hq : (toLowercase q).isEmpty with
      | false => simp only [hq, Bool.false_or]
      | true =>
        have hdata : (toLowercase q).data = [] := by
          rw [(String.isEmpty_iff (toLowercase q)).mp hq]
        have h1 : ∀ l : List Char, decide ([] <:+: l) = true :=
          fun l => decide_eq_true List.nil_infix
        simp [hdata, h1]
    rw [hfilter]
    rfl
  · unfold filtered_notes
    have hq : ∀ n : Note, matches_query "" n = true := fun n => rfl
    have hall : List.filter (fun p => matches_query "" p.2) notes.enum = notes.enum :=
      List.filter_eq_self.mpr (fun a _ => hq a.2)
    rw [hall]

/-- Index lookup after an insertion: positions left of the insertion point
are unchanged, the insertion point holds the new element, and later
positions shift by one. -/
theorem getElem?_insertIdx_split {α : Type _} (E : List α) (x : α) (t j : Nat)
    (ht : t ≤ E.length) :
    (E.insertIdx t x)[j]? = if j < t then E[j]? else if j = t then some x else E[j - 1]? := by
  have hlenR : (E.insertIdx t x).length = E.length + 1 := List.length_insertIdx t E ht
  rcases Nat.lt_trichotomy j t with hj | hj | hj
  · rw [if_pos hj]
    have hjE : j < E.length := Nat.lt_of_lt_of_le hj ht
    have hjR : j < (E.insertIdx t x).length := by omega
    rw [List.getElem?_eq_getElem hjR, List.getElem?_eq_getElem hjE,
        List.getElem_insertIdx_of_lt E x t j hj hjE]
  · subst hj
    rw [if_neg (lt_irrefl j), if_pos rfl]
    have hjR : j < (E.insertIdx j x).length := by omega
    rw [List.getElem?_eq_getElem hjR, List.getElem_insertIdx_self E x j ht]
  · rw [if_neg (by omega), if_neg (by omega)]
    by_cases hE : j - 1 < E.length
    · have hk' : t + (j - t - 1) < E.length := by omega
      have h2 : (E.insertIdx t x)[t + (j - t - 1) + 1]? = E[t + (j - t - 1)]? := by
        rw [List.getElem?_eq_getElem
              (show t + (j - t - 1) + 1 < (E.insertIdx t x).length by omega),
            List.getElem?_eq_getElem hk']
        exact congrArg some (List.getElem_insertIdx_add_succ E x t (j - t - 1) hk')
      have hjj : j = t + (j - t - 1) + 1 := by omega
      have hj1 : j - 1 = t + (j - t - 1) := by omega
      calc (E.insertIdx t x)[j]?
          = (E.insertIdx t x)[t + (j - t - 1) + 1]? := by rw [← hjj]
        _ = E[t + (j - t - 1)]? := h2
        _ = E[j - 1]? := by rw [← hj1]
    · have h1 : (E.insertIdx t x)[j]? = none := List.getElem?_eq_none (by omega)
      have h2 : E[j - 1]? = none := List.getElem?_eq_none (by omega)
      rw [h1, h2]

/-- A list is a permutation of its element at `f` followed by the list with
position `f` erased. -/
theorem perm_getElem_cons_eraseIdx {α : Type _} (l : List α) (f : Nat)
    (hf : f < l.length) : l.Perm (l[f] :: l.eraseIdx f) := by
  conv_lhs => rw [← List.take_append_drop f l]
  rw [List.eraseIdx_eq_take_drop_succ, List.drop_eq_getElem_cons hf]
  exact List.perm_middle

/-- Claim C1: the move operation is a no-op when the indices are equal or out of
range; otherwise it permutes the notes (same multiset), places the note
formerly at `from` at position `to`, and re-derives the selected index so
that it still points at the same note; on the `[A, B, C]` store with `B`
selected, `move(2, 0)` yields `[C, A, B]` with `B` selected at index 2. -/
theorem move_note_spec (s : NotesApp) (f t : Nat) :
    (¬(f ≠ t ∧ f < s.notes.length ∧ t < s.notes.length) → move_note s f t = s)
      ∧ (f ≠ t → f < s.notes.length → t < s.notes.length →
          (move_note s f t).notes.Perm s.notes
            ∧ (move_note s f t).notes[t]? = s.notes[f]?
            ∧ ∀ i, s.selected = some i → i < s.notes.length →
                ∃ j, (move_note s f t).selected = some j
                  ∧ (move_note s f t).notes[j]? = s.notes[i]?)
      ∧ ((move_note demoStore 2 0).notes = [noteC, noteA, noteB]
          ∧ (move_note demoStore 2 0).selected = some 2) := by
  refine ⟨fun h => ?_, fun hne hf ht => ?_, by decide, by decide⟩
  · unfold move_note
    rw [dif_neg h]
  · have hcond : f ≠ t ∧ f < s.notes.length ∧ t < s.notes.length := ⟨hne, hf, ht⟩
    have hnotes : (move_note s f t).notes
        = (s.notes.eraseIdx f).insertIdx t (s.notes.get ⟨f, hf⟩) := by
      unfold move_note
      rw [dif_pos hcond]
    have hsel : (move_note s f t).selected
        = match s.selected with
          | none => none
          | some i =>
            if i = f then some t
            else if f < i ∧ i ≤ t then some (i - 1)
            else if i < f ∧ t ≤ i then some (i + 1)
            else some i := by
      unfold move_note
      rw [dif_pos hcond]
    have hlenE : (s.notes.eraseIdx f).length = s.notes.length - 1 := by
      rw [List.length_eraseIdx]
      simp [hf]
    have htE : t ≤ (s.notes.eraseIdx f).length := by omega
    have hx : s.notes[f]? = some (s.notes.get ⟨f, hf⟩) := by
      rw [List.getElem?_eq_getElem hf, List.get_eq_getElem]
    refine ⟨?_, ?_, ?_⟩
    · rw [hnotes]
      have h1 := List.perm_insertIdx (s.notes.get ⟨f, hf⟩) (s.notes.eraseIdx f) htE
      have h2 := perm_getElem_cons_eraseIdx s.notes f hf
      rw [List.get_eq_getElem] at h1
      exact h1.trans h2.symm
    · rw [hnotes, getElem?_insertIdx_split _ _ t t htE, if_neg (lt_irrefl t), if_pos rfl, hx]
    · intro i hi hilen
      simp only [hi] at hsel
      by_cases hif : i = f
      · subst hif
        rw [if_pos rfl] at hsel
        refine ⟨t, hsel, ?_⟩
        rw [hnotes, getElem?_insertIdx_split _ _ t t htE, if_neg (lt_irrefl t), if_pos rfl, hx]
      · by_cases hcase2 : f < i ∧ i ≤ t
        · rw [if_neg hif, if_pos hcase2] at hsel
          refine ⟨i - 1, hsel, ?_⟩
          rw [hnotes, getElem?_insertIdx_split _ _ t (i - 1) htE, if_pos (by omega),
              List.getElem?_eraseIdx_of_ge s.notes f (i - 1) (by omega)]
          have h11 : i - 1 + 1 = i := by omega
          rw [h11]
        · by_cases hcase3 : i < f ∧ t ≤ i
          · rw [if_neg hif, if_neg hcase2, if_pos hcase3] at hsel
            refine ⟨i + 1, hsel, ?_⟩
            rw [hnotes, getElem?_insertIdx_split _ _ t (i + 1) htE, if_neg (by omega),
                if_neg (by omega)]
            have h11 : i + 1 - 1 = i := by omega
            rw [h11, List.getElem?_eraseIdx_of_lt s.notes f i hcase3.1]
          · rw [if_neg hif, if_neg hcase2, if_neg hcase3] at hsel
            refine ⟨i, hsel, ?_⟩
            rw [hnotes, getElem?_insertIdx_split _ _ t i htE]
            rcases Nat.lt_or_ge i t with hit | hit
            · rw [if_pos hit]
              have hif2 : i < f := by omega
              rw [List.getElem?_eraseIdx_of_lt s.notes f i hif2]
            · rw [if_neg (by omega), if_neg (by omega),
                  List.getElem?_eraseIdx_of_ge s.notes f (i - 1) (by omega)]
              have h11 : i - 1 + 1 = i := by omega
              rw [h11]

/-- Witness for Claim C1: on the scenario store, the selection follows note
`B` across `move(2, 0)`. -/
theorem move_note_spec_witness :
    ∃ j, (move_note demoStore 2 0).selected = some j
      ∧ (move_note demoStore 2 0).notes[j]? = demoStore.notes[1]? :=
  ((move_note_spec demoStore 2 0).2.1 (by decide) (by decide) (by decide)).2.2 1 rfl
    (by decide)

/-- Moving a note never touches the drag state. -/
theorem move_note_dragging (s : NotesApp) (f t : Nat) :
    (move_note s f t).dragging = s.dragging := by
  unfold move_note
  split <;> rfl

/-- The scenario store with a drag of the note at index 2 in flight. -/
def demoDrag : NotesApp :=
  { demoStore with dragging := some 2 }

/-- The filtered rows of the scenario store under the empty query. -/
theorem filtered_notes_demo :
    filtered_notes demoStore.notes demoStore.search
      = [(0, "A", 1), (1, "B", 2), (2, "C", 3)] := rfl

/-- With the scenario geometry (panel top 0, left 0, width 100), the pointer
at `(50, 10)` — above the first row, whose rectangle starts at `y = 40` —
lies in no row rectangle. -/
theorem inRowRect_demo_above (li : Nat) (hli : li < 3) :
    inRowRect 0 0 100 li (50, 10) = false := by
  interval_cases li <;> (simp [inRowRect]; norm_num)

/-- The release scan finds no target row for the scenario drag with the
pointer above the first row. -/
theorem drop_resolve_demo_none :
    drop_resolve (filtered_notes demoStore.notes demoStore.search) 2 (50, 10) 0 0 100
      = none := by
  rw [filtered_notes_demo]
  have hE : ([(0, "A", 1), (1, "B", 2), (2, "C", 3)] : List (Nat × String × Nat)).enum
      = [(0, (0, "A", 1)), (1, (1, "B", 2)), (2, (2, "C", 3))] := rfl
  have h0 := inRowRect_demo_above 0 (by omega)
  have h1 := inRowRect_demo_above 1 (by omega)
  have h2 := inRowRect_demo_above 2 (by omega)
  simp [drop_resolve, hE, List.find?, h0, h1, h2]

/-- Claim C3, counterexample: with the pointer above the first row, the
code requests no move at all (`drop_resolve` yields `none`), while the
resolution described by the specification clamps to the start of the list
and requests `move(2, 0)`. -/
theorem drag_release_clamp_counterexample :
    drop_resolve (filtered_notes demoStore.notes demoStore.search) 2 (50, 10) 0 0 100
        = none
      ∧ spec_drop_resolve (filtered_notes demoStore.notes demoStore.search) 2 (50, 10) 0 0 100
        = some (2, 0) := by
  refine ⟨drop_resolve_demo_none, ?_⟩
  rw [filtered_notes_demo]
  have hE : ([(0, "A", 1), (1, "B", 2), (2, "C", 3)] : List (Nat × String × Nat)).enum
      = [(0, (0, "A", 1)), (1, (1, "B", 2)), (2, (2, "C", 3))] := rfl
  have h0 := inRowRect_demo_above 0 (by omega)
  have h1 := inRowRect_demo_above 1 (by omega)
  have h2 := inRowRect_demo_above 2 (by omega)
  simp [spec_drop_resolve, hE, List.find?, h0, h1, h2]
  norm_num

/-- Claim C3, amended: on pointer release the drag state always returns to
idle; when the pointer (if any) lies in the rectangle of some row other
than the dragged one, `move_note` is invoked from the drag origin to that
row's original index — with no above/below-center adjustment; when no row
rectangle contains the pointer (in particular above the first row, below
the last row, or in a gap between rows) no move is invoked at all: there is
no clamping to the ends of the list. -/
theorem drag_release_spec (s : NotesApp) (pointer : Option (ℚ × ℚ)) (top left width : ℚ) :
    (drag_release s pointer top left width).dragging = none
      ∧ (s.dragging = none → drag_release s pointer top left width = s)
      ∧ (∀ d, s.dragging = some d →
          (pointer = none →
              drag_release s pointer top left width = { s with dragging := none })
          ∧ ∀ p, pointer = some p →
              (drop_resolve (filtered_notes s.notes s.search) d p top left width = none →
                  drag_release s pointer top left width = { s with dragging := none })
              ∧ ∀ ft, drop_resolve (filtered_notes s.notes s.search) d p top left width
                    = some ft →
                  drag_release s pointer top left width
                    = move_note { s with dragging := none } ft.1 ft.2)
      ∧ (∀ d p, (∀ li, li < (filtered_notes s.notes s.search).length →
            inRowRect top left width li p = false) →
          drop_resolve (filtered_notes s.notes s.search) d p top left width = none) := by
  refine ⟨?_, fun hd => ?_, fun d hd => ?_, fun d p hall => ?_⟩
  · cases hd : s.dragging with
    | none => simp [drag_release, hd]
    | some d =>
      cases hp : pointer with
      | none => simp [drag_release, hd, hp]
      | some p =>
        cases hres : drop_resolve (filtered_notes s.notes s.search) d p top left width with
        | none => simp [drag_release, hd, hp, hres]
        | some ft =>
          cases ft with
          | mk f t => simp [drag_release, hd, hp, hres, move_note_dragging]
  · simp [drag_release, hd]
  · refine ⟨fun hp => ?_, fun p hp => ⟨fun hres => ?_, fun ft hres => ?_⟩⟩
    · simp [drag_release, hd, hp]
    · simp [drag_release, hd, hp, hres]
    · cases ft with
      | mk f t => simp [drag_release, hd, hp, hres]
  · unfold drop_resolve
    have hfind : (filtered_notes s.notes s.search).enum.find?
        (fun e => (e.2.1 != d) && inRowRect top left width e.1 p) = none := by
      rw [List.find?_eq_none]
      intro e he
      rcases e with ⟨li, v⟩
      have hmem : (li, v) ∈ (filtered_notes s.notes s.search).enumFrom 0 := he
      have hlt : li < (filtered_notes s.notes s.search).length := by
        have := (List.mem_enumFrom hmem).2.1
        omega
      simp [hall li hlt]
    rw [hfind]

/-- Witness for Claim C3 (amended) on the scenario drag: releasing with the
pointer above the first row only resets the drag state. -/
theorem drag_release_spec_witness :
    drag_release demoDrag (some (50, 10)) 0 0 100 = { demoDrag with dragging := none } :=
  (((drag_release_spec demoDrag (some (50, 10)) 0 0 100).2.2.1 2 rfl).2 (50, 10) rfl).1
    drop_resolve_demo_none
